import Mathlib

/-!
Verification of the cocos acknowledgment-based reliable vsock transport
(framed codec, `AckReader`, `AckWriter`, message store) and of the small
pure service-layer functions (`tracingMiddleware`, the embedded
`managerService.FetchBackendInfo`, `pingReq.validate`).

The vsock protocol implementation itself ships outside this tree (only its
test suite is present), so the protocol definitions below are modelled from
the specification document, faithful to its wording; the service-layer
definitions are direct translations of the Go source files.

Bytes are modelled as `Nat` values (the wire functions produce values < 256;
payload bytes pass through untouched).  Machine `uint32` arithmetic is
explicit `% 4294967296`.
-/

namespace Cocos

/-- Number of values of a `uint32`: 2^32. -/
def u32Mod : Nat := 4294967296

/-- Modelled from the spec: little-endian serialization of a `uint32`
(`binary.LittleEndian.PutUint32`): four bytes, least significant first. -/
def le32 (n : Nat) : List Nat :=
  [n % 256, n / 256 % 256, n / 65536 % 256, n / 16777216 % 256]

/-- Modelled from the spec: little-endian deserialization of a `uint32`
(`binary.LittleEndian.Uint32`) from four bytes. -/
def fromLe32 (b0 b1 b2 b3 : Nat) : Nat :=
  b0 + 256 * b1 + 65536 * b2 + 16777216 * b3

/-- A duplex byte-stream connection, as exercised by the test suite's
`MockConn`: a buffer of bytes available to `Read`, the bytes written so far,
a flag forcing every `Write` to fail, and a closed flag. -/
structure Conn where
  readData : List Nat
  writtenData : List Nat
  writeErr : Bool
  closed : Bool
  deriving Repr, DecidableEq

/-- A freshly opened connection with a given inbound buffer. -/
def mkConn (input : List Nat) : Conn :=
  { readData := input, writtenData := [], writeErr := false, closed := false }

/-- `MockConn.Write`: fails when the connection is closed or its write-error
flag is set; otherwise appends the bytes to the written buffer. -/
def connWrite (c : Conn) (b : List Nat) : Except Unit Conn :=
  if c.closed then .error ()
  else if c.writeErr then .error ()
  else .ok { c with writtenData := c.writtenData ++ b }

/-- Modelled from the spec: `MockConn.Close` / the connection close effect —
mark the connection closed. -/
def connClose (c : Conn) : Conn :=
  { c with closed := true }

/-- Modelled from the spec (§4.1 Framed Codec): `encode(id, payload)` —
`[ id:u32 ][ length:u32 ][ payload ]`, little-endian integers. -/
def encodeFrame (id : Nat) (payload : List Nat) : List Nat :=
  le32 id ++ le32 payload.length ++ payload

inductive ReadError where
  | ioError
  | sizeViolation
  | ackWriteError
  deriving Repr, DecidableEq

/-- Modelled from the spec (§4.2 Acknowledgment Reader): read exactly 8
header bytes (I/O failure otherwise); decode `(id, length)`; if
`length > maxMessageSize` fail with a size violation without reading further
bytes; otherwise read exactly `length` payload bytes and synchronously write
the 4-byte ACK frame carrying `id` back on the connection before returning
the payload.  Returns the read outcome together with the final connection
state. -/
def ackRead (maxMessageSize : Nat) (c : Conn) :
    Except ReadError (List Nat) × Conn :=
  if c.closed then (.error .ioError, c)
  else
    match c.readData with
    | b0 :: b1 :: b2 :: b3 :: b4 :: b5 :: b6 :: b7 :: rest =>
      let id := fromLe32 b0 b1 b2 b3
      let len := fromLe32 b4 b5 b6 b7
      if len > maxMessageSize then
        (.error .sizeViolation, { c with readData := rest })
      else if len ≤ rest.length then
        match connWrite { c with readData := rest.drop len } (le32 id) with
        | .error _ => (.error .ackWriteError, { c with readData := rest.drop len })
        | .ok c2 => (.ok (rest.take len), c2)
      else (.error .ioError, { c with readData := rest })
    | _ => (.error .ioError, c)

inductive MsgStatus where
  | Pending
  | Acknowledged
  | Failed
  deriving Repr, DecidableEq

/-- Modelled from the spec (§3 Data Model): a delivery record, held by the
Writer side: `{ id, content, status }`. -/
structure Message where
  id : Nat
  content : List Nat
  status : MsgStatus
  deriving Repr, DecidableEq

/-- The Message Store, modelled as an association list from message ID to
record.  The concurrent map's `Store` replaces the record under an existing
key and otherwise appends. -/
def storeInsert (store : List (Nat × Message)) (id : Nat) (m : Message) :
    List (Nat × Message) :=
  if store.any (fun p => p.1 = id) then
    store.map (fun p => if p.1 = id then (id, m) else p)
  else store ++ [(id, m)]

/-- `Load` on the Message Store: the record under a key, if any. -/
def storeLookup (store : List (Nat × Message)) (id : Nat) : Option Message :=
  (store.find? (fun p => p.1 = id)).map Prod.snd

inductive WriteError where
  | sizeExceeded
  | cancelled
  | transportFailure
  deriving Repr, DecidableEq

/-- Modelled from the spec (§4.3 Acknowledgment Writer): the Writer wraps a
connection, allocates monotonically increasing message IDs (a `uint32`
counter, modelled as an unbounded counter whose low 32 bits are the wire ID),
tracks records in the Message Store and owns a cancellable lifetime. -/
structure AckWriter where
  conn : Conn
  nextID : Nat
  messageStore : List (Nat × Message)
  cancelled : Bool
  deriving Repr, DecidableEq

/-- Modelled from the spec: `NewAckWriter` — fresh writer over a connection;
the first allocated message ID is 1. -/
def newAckWriter (c : Conn) : AckWriter :=
  { conn := c, nextID := 1, messageStore := [], cancelled := false }

/-- Modelled from the spec (§4.3 `Write`): reject immediately when
`len(payload) > maxMessageSize` (no ID consumed, nothing queued); report a
cancellation error when the lifetime is cancelled; otherwise allocate the
next ID, insert a `Pending` record, and block until the background sender has
attempted the transport write of the frame — modelled by performing that
attempt inline.  On transport failure the record is marked `Failed` and
`(0, error)` is returned; on success `(len(payload), nil)` is returned and
the record stays `Pending`. -/
def ackWriterWrite (maxMessageSize : Nat) (aw : AckWriter) (payload : List Nat) :
    AckWriter × Nat × Option WriteError :=
  if payload.length > maxMessageSize then (aw, 0, some .sizeExceeded)
  else if aw.cancelled then (aw, 0, some .cancelled)
  else
    let id := aw.nextID % u32Mod
    let msg : Message := { id := id, content := payload, status := .Pending }
    let store1 := storeInsert aw.messageStore id msg
    match connWrite aw.conn (encodeFrame id payload) with
    | .error _ =>
      ({ aw with nextID := aw.nextID + 1,
                 messageStore := storeInsert store1 id { msg with status := .Failed } },
       0, some .transportFailure)
    | .ok c2 =>
      ({ aw with conn := c2, nextID := aw.nextID + 1, messageStore := store1 },
       payload.length, none)

/-- Modelled from the spec (§4.3 background sender): dequeue messages in FIFO
order, frame each via the codec and write it to the connection; on a write
error store the record with status `Failed`; on success the store is left as
is (the record, inserted by `Write`, stays `Pending` awaiting an ACK). -/
def processPending (c : Conn) (store : List (Nat × Message)) :
    List Message → Conn × List (Nat × Message)
  | [] => (c, store)
  | m :: ms =>
    match connWrite c (encodeFrame m.id m.content) with
    | .error _ => processPending c (storeInsert store m.id { m with status := .Failed }) ms
    | .ok c2 => processPending c2 store ms

/-- Modelled from the spec (§4.3 `cleanupOldMessages`): once the store size
exceeds `maxConcurrent`, remove every record whose ID lies below the cutoff
`thresholdID - maxConcurrent`, retaining the most recent up to capacity;
eviction is unconditional on status. -/
def cleanupOldMessages (maxConcurrent : Nat) (store : List (Nat × Message))
    (thresholdID : Nat) : List (Nat × Message) :=
  if store.length > maxConcurrent then
    store.filter (fun p => thresholdID - maxConcurrent ≤ p.1)
  else store

/-- Modelled from the spec (§4.3 `Close`): cancel the Writer's lifetime, then
close the underlying connection; returns no error. -/
def ackWriterClose (aw : AckWriter) : AckWriter × Option WriteError :=
  ({ aw with cancelled := true, conn := connClose aw.conn }, none)

/-- A span name passed to `trace.Tracer.Start` by the tracing middleware. -/
inductive SpanName where
  | run
  | stop
  | fetchBackendInfo
  deriving Repr, DecidableEq

/-- A Go `context.Context`, modelled as the chain of span names attached to
it by `trace.Tracer.Start` (which derives a new context from its argument). -/
structure GoContext where
  spans : List SpanName
  deriving Repr, DecidableEq

/-- An OpenTelemetry `trace.Tracer`; its identity is irrelevant to the
middleware's results. -/
structure Tracer where
  tag : Nat
  deriving Repr, DecidableEq

/-- `tracer.Start(ctx, name)`: returns a context derived from `ctx` carrying
the new span (the span handle itself only supports `End()` and has no effect
on any result, so it is modelled as `Unit`). -/
def tracerStart (_t : Tracer) (ctx : GoContext) (name : SpanName) : GoContext × Unit :=
  ({ spans := name :: ctx.spans }, ())

/-- A `manager.ComputationRunReq` protobuf value, opaque to the middleware. -/
structure ComputationRunReq where
  tag : Nat
  deriving Repr, DecidableEq

/-- The `manager.Service` interface: each method is a function of the
arguments the Go methods receive. -/
structure Service where
  run : GoContext → ComputationRunReq → String × Option String
  stop : GoContext → String → Option String
  fetchBackendInfo : GoContext → String → List Nat × Option String
  reportBrokenConnection : String → Unit

/-- The `tracingMiddleware` struct: a tracer and the wrapped service. -/
structure tracingMiddleware where
  tracer : Tracer
  svc : Service

/-- `tracingMiddleware.Run`: `ctx, span := tm.tracer.Start(ctx, "run")`,
then `return tm.svc.Run(ctx, mc)` — the wrapped service receives the
span-derived context. -/
def tracingMiddleware.Run (tm : tracingMiddleware) (ctx : GoContext)
    (mc : ComputationRunReq) : String × Option String :=
  tm.svc.run (tracerStart tm.tracer ctx .run).1 mc

/-- `tracingMiddleware.Stop`: `ctx, span := tm.tracer.Start(ctx, "stop")`,
then `return tm.svc.Stop(ctx, computationID)`. -/
def tracingMiddleware.Stop (tm : tracingMiddleware) (ctx : GoContext)
    (computationID : String) : Option String :=
  tm.svc.stop (tracerStart tm.tracer ctx .stop).1 computationID

/-- `tracingMiddleware.FetchBackendInfo`: `_, span := tm.tracer.Start(...)` —
the derived context is discarded and the wrapped service receives the
original `ctx`. -/
def tracingMiddleware.FetchBackendInfo (tm : tracingMiddleware) (ctx : GoContext)
    (computationId : String) : List Nat × Option String :=
  tm.svc.fetchBackendInfo ctx computationId

/-- `tracingMiddleware.ReportBrokenConnection`: direct delegation, no span. -/
def tracingMiddleware.ReportBrokenConnection (tm : tracingMiddleware)
    (addr : String) : Unit :=
  tm.svc.reportBrokenConnection addr

/-- The `managerService` under the `embed` build tag: it holds the embedded
`backendinfo.BackendInfo` byte slice (`//go:embed`, fixed at build time). -/
structure managerService where
  backendInfo : List Nat
  deriving Repr, DecidableEq

/-- `managerService.FetchBackendInfo` (embed build):
`return backendinfo.BackendInfo, nil`, ignoring both arguments. -/
def managerService.FetchBackendInfo (ms : managerService) (_ctx : GoContext)
    (_computationId : String) : List Nat × Option String :=
  (ms.backendInfo, none)

/-- `agent.ErrMalformedEntity` and the other sentinel errors of the agent
package; only the malformed-entity error is relevant here. -/
inductive AgentError where
  | ErrMalformedEntity
  deriving Repr, DecidableEq

/-- The HTTP `pingReq` request body: `{ Secret string }`. -/
structure pingReq where
  Secret : String
  deriving Repr, DecidableEq

/-- `pingReq.validate`: returns `agent.ErrMalformedEntity` when `Secret` is
the empty string, `nil` otherwise. -/
def pingReq.validate (req : pingReq) : Option AgentError :=
  if req.Secret = "" then some .ErrMalformedEntity else none

/-- A sequence of `Write` calls on one Writer, recording for each call the
value of the ID counter it allocated (`none` when the call was rejected and
allocated no ID, observable as the counter not advancing). -/
def writeAllLog (maxMessageSize : Nat) (aw : AckWriter) :
    List (List Nat) → AckWriter × List (Option Nat)
  | [] => (aw, [])
  | p :: ps =>
    let step := ackWriterWrite maxMessageSize aw p
    let rest := writeAllLog maxMessageSize step.1 ps
    (rest.1, (if aw.nextID < step.1.nextID then some aw.nextID else none) :: rest.2)

/-- A wrapped service whose `Run` result depends on the spans attached to the
context it receives; it distinguishes the original context from the
span-derived one. -/
def svcProbe : Service :=
  { run := fun ctx _ => (if ctx.spans = [] then "original" else "derived", none)
    stop := fun _ _ => none
    fetchBackendInfo := fun _ _ => ([], none)
    reportBrokenConnection := fun _ => () }

/-- A tracing middleware over `svcProbe`. -/
def tmProbe : tracingMiddleware :=
  { tracer := { tag := 0 }, svc := svcProbe }

theorem le32_length (n : Nat) : (le32 n).length = 4 := rfl

theorem fromLe32_le32 (n : Nat) :
    fromLe32 (n % 256) (n / 256 % 256) (n / 65536 % 256) (n / 16777216 % 256) =
      n % u32Mod := by
  simp only [fromLe32, u32Mod]
  omega

/-- C10: `pingReq.validate` returns `agent.ErrMalformedEntity` if and only
if the request's `Secret` field is the empty string, and returns `nil`
exactly for the requests whose `Secret` is non-empty. -/
theorem pingReq_validate_characterization (req : pingReq) :
    (req.validate = some AgentError.ErrMalformedEntity ↔ req.Secret = "") ∧
    (req.validate = none ↔ req.Secret ≠ "") := by
  unfold pingReq.validate
  by_cases h : req.Secret = "" <;> simp [h]

theorem pingReq_validate_characterization_witness :
    (pingReq.validate { Secret := "abc" } = some AgentError.ErrMalformedEntity ↔
      ({ Secret := "abc" } : pingReq).Secret = "") ∧
    (pingReq.validate { Secret := "abc" } = none ↔
      ({ Secret := "abc" } : pingReq).Secret ≠ "") :=
  pingReq_validate_characterization { Secret := "abc" }

/-- C9: under the embed build, `managerService.FetchBackendInfo` returns the
embedded `backendinfo.BackendInfo` bytes and a nil error, independently of
the context and the computation ID. -/
theorem managerService_FetchBackendInfo_const (ms : managerService)
    (ctx1 ctx2 : GoContext) (cid1 cid2 : String) :
    ms.FetchBackendInfo ctx1 cid1 = (ms.backendInfo, none) ∧
    ms.FetchBackendInfo ctx1 cid1 = ms.FetchBackendInfo ctx2 cid2 :=
  ⟨rfl, rfl⟩

/-- C6: `AckWriter.Close` returns no error and marks the underlying
connection closed; a second `Close` again returns no error and leaves the
state exactly as after the first, so the close effect happens once. -/
theorem ackWriterClose_idempotent (aw : AckWriter) :
    (ackWriterClose aw).2 = none ∧
    (ackWriterClose aw).1.conn.closed = true ∧
    ackWriterClose (ackWriterClose aw).1 = ((ackWriterClose aw).1, none) := by
  refine ⟨rfl, rfl, ?_⟩
  simp [ackWriterClose, connClose]

/-- C2: when `len(payload) > maxMessageSize`, `AckWriter.Write` returns the
size-violation error with zero bytes written and leaves the writer
untouched: no message ID is consumed, no record enters the Message Store,
and no frame reaches the connection. -/
theorem ackWriterWrite_oversize (mms : Nat) (aw : AckWriter) (p : List Nat)
    (h : p.length > mms) :
    ackWriterWrite mms aw p = (aw, 0, some WriteError.sizeExceeded) := by
  simp [ackWriterWrite, h]

theorem ackWriterWrite_oversize_witness :
    ([0, 1, 2, 3, 4] : List Nat).length > 4 ∧
    ackWriterWrite 4 (newAckWriter (mkConn [])) [0, 1, 2, 3, 4] =
      (newAckWriter (mkConn []), 0, some WriteError.sizeExceeded) :=
  ⟨by decide, ackWriterWrite_oversize 4 (newAckWriter (mkConn [])) [0, 1, 2, 3, 4] (by decide)⟩

/-- C8 counterexample: the wrapped service's `Run` is not applied to the same
arguments the middleware received — it receives the span-derived context, and
a service that inspects its context observes the difference. -/
theorem tracingMiddleware_Run_not_same_args :
    tracingMiddleware.Run tmProbe { spans := [] } { tag := 0 } ≠
      tmProbe.svc.run { spans := [] } { tag := 0 } := by
  decide

/-- C8 (amended): every method of the tracing middleware returns exactly the
wrapped service's result, never altering it; `FetchBackendInfo` and
`ReportBrokenConnection` pass their arguments through unchanged, while `Run`
and `Stop` pass the span-derived context produced by `tracer.Start` together
with their other arguments unchanged. -/
theorem tracingMiddleware_delegates (tm : tracingMiddleware) (ctx : GoContext)
    (mc : ComputationRunReq) (cid : String) (addr : String) :
    tm.Run ctx mc = tm.svc.run (tracerStart tm.tracer ctx .run).1 mc ∧
    tm.Stop ctx cid = tm.svc.stop (tracerStart tm.tracer ctx .stop).1 cid ∧
    tm.FetchBackendInfo ctx cid = tm.svc.fetchBackendInfo ctx cid ∧
    tm.ReportBrokenConnection addr = tm.svc.reportBrokenConnection addr :=
  ⟨rfl, rfl, rfl, rfl⟩

/-- C3: a frame whose decoded header declares a length above `maxMessageSize`
makes `AckReader.Read` fail with the size-violation error having consumed
exactly the 8 header bytes: the declared payload bytes are still unread and
nothing was written to the connection. -/
theorem ackRead_oversize (mms id len : Nat) (rest : List Nat)
    (hlen : len < u32Mod) (hover : len > mms) :
    ackRead mms (mkConn (le32 id ++ le32 len ++ rest)) =
      (.error .sizeViolation, mkConn rest) := by
  have hdec : fromLe32 (len % 256) (len / 256 % 256) (len / 65536 % 256)
      (len / 16777216 % 256) = len := by
    rw [fromLe32_le32, Nat.mod_eq_of_lt hlen]
  simp [ackRead, mkConn, le32, hdec, hover]

theorem ackRead_oversize_witness :
    (300 : Nat) < u32Mod ∧ (300 : Nat) > 2 ∧
    ackRead 2 (mkConn (le32 7 ++ le32 300 ++ [9, 9, 9])) =
      (.error .sizeViolation, mkConn [9, 9, 9]) :=
  ⟨by decide, by decide, ackRead_oversize 2 7 300 [9, 9, 9] (by decide) (by decide)⟩

/-- C1: for `len(p) ≤ maxMessageSize` (the empty payload included), `Write`
on a fresh connection returns `(len(p), nil)` and places exactly the encoded
frame on the wire; the paired `AckReader.Read` of that frame returns a
payload byte-equal to `p`, consumes the whole frame, and writes back exactly
one 4-byte little-endian ACK carrying the frame's ID. -/
theorem ackWriter_ackReader_roundtrip (mms n0 : Nat) (s0 : List (Nat × Message))
    (p : List Nat) (hm : mms < u32Mod) (hp : p.length ≤ mms) :
    (ackWriterWrite mms ⟨mkConn [], n0, s0, false⟩ p).2 = (p.length, none) ∧
    (ackWriterWrite mms ⟨mkConn [], n0, s0, false⟩ p).1.conn.writtenData =
      encodeFrame (n0 % u32Mod) p ∧
    ackRead mms (mkConn (encodeFrame (n0 % u32Mod) p)) =
      (.ok p, { readData := [], writtenData := le32 (n0 % u32Mod),
                writeErr := false, closed := false }) := by
  have hnot : ¬ p.length > mms := by omega
  have hid : fromLe32 (n0 % u32Mod % 256) (n0 % u32Mod / 256 % 256)
      (n0 % u32Mod / 65536 % 256) (n0 % u32Mod / 16777216 % 256) = n0 % u32Mod := by
    rw [fromLe32_le32, Nat.mod_mod_of_dvd _ (dvd_refl u32Mod)]
  have hlen : fromLe32 (p.length % 256) (p.length / 256 % 256)
      (p.length / 65536 % 256) (p.length / 16777216 % 256) = p.length := by
    rw [fromLe32_le32, Nat.mod_eq_of_lt (by omega)]
  refine ⟨?_, ?_, ?_⟩
  · simp [ackWriterWrite, connWrite, mkConn, hnot]
  · simp [ackWriterWrite, connWrite, mkConn, hnot]
  · simp [ackRead, mkConn, encodeFrame, le32, connWrite, hid, hlen, hnot]

theorem ackWriter_ackReader_roundtrip_witness :
    (13 : Nat) < u32Mod ∧
    ([72, 101, 108, 108, 111, 44, 32, 87, 111, 114, 108, 100, 33] : List Nat).length ≤ 13 ∧
    ((ackWriterWrite 13 ⟨mkConn [], 1, [], false⟩
        [72, 101, 108, 108, 111, 44, 32, 87, 111, 114, 108, 100, 33]).2 = (13, none) ∧
      (ackWriterWrite 13 ⟨mkConn [], 1, [], false⟩
        [72, 101, 108, 108, 111, 44, 32, 87, 111, 114, 108, 100, 33]).1.conn.writtenData =
        encodeFrame (1 % u32Mod) [72, 101, 108, 108, 111, 44, 32, 87, 111, 114, 108, 100, 33] ∧
      ackRead 13 (mkConn (encodeFrame (1 % u32Mod)
          [72, 101, 108, 108, 111, 44, 32, 87, 111, 114, 108, 100, 33])) =
        (.ok [72, 101, 108, 108, 111, 44, 32, 87, 111, 114, 108, 100, 33],
         { readData := [], writtenData := le32 (1 % u32Mod),
           writeErr := false, closed := false })) :=
  ⟨by decide, by decide,
    by
      have h := ackWriter_ackReader_roundtrip 13 1 []
        [72, 101, 108, 108, 111, 44, 32, 87, 111, 114, 108, 100, 33] (by decide) (by decide)
      simpa using h⟩

theorem length_filter_range (n k : Nat) :
    ((List.range n).filter (fun i => decide (k ≤ i))).length = n - k := by
  induction n with
  | zero => simp
  | succ n ih =>
    rw [List.range_succ, List.filter_append, List.length_append, ih]
    by_cases h : k ≤ n <;> simp [h] <;> omega

/-- C4: with `maxConcurrent + k` records (`k > 0`, arbitrary statuses and
contents, IDs `1..maxConcurrent+k`) in the Message Store, a cleanup pass at a
threshold just above the newest ID retains exactly the records whose ID
reaches the cutoff — the `k` oldest IDs are evicted irrespective of status —
and the store ends at no more than `maxConcurrent` records. -/
theorem cleanupOldMessages_evicts_oldest (mc k : Nat) (st : Nat → MsgStatus)
    (ct : Nat → List Nat) (hk : 0 < k) :
    cleanupOldMessages mc
        ((List.range (mc + k)).map (fun i => (i + 1, ⟨i + 1, ct i, st i⟩)))
        (mc + k + 1) =
      ((List.range (mc + k)).map
          (fun i => (i + 1, (⟨i + 1, ct i, st i⟩ : Message)))).filter
        (fun p => decide (k + 1 ≤ p.1)) ∧
    (cleanupOldMessages mc
        ((List.range (mc + k)).map (fun i => (i + 1, ⟨i + 1, ct i, st i⟩)))
        (mc + k + 1)).length ≤ mc := by
  have hlen : ((List.range (mc + k)).map
      (fun i => (i + 1, (⟨i + 1, ct i, st i⟩ : Message)))).length = mc + k := by
    simp
  have hcut : mc + k + 1 - mc = k + 1 := by omega
  have hif : cleanupOldMessages mc
      ((List.range (mc + k)).map (fun i => (i + 1, ⟨i + 1, ct i, st i⟩)))
      (mc + k + 1) =
      ((List.range (mc + k)).map
          (fun i => (i + 1, (⟨i + 1, ct i, st i⟩ : Message)))).filter
        (fun p => decide (k + 1 ≤ p.1)) := by
    unfold cleanupOldMessages
    rw [hlen, hcut, if_pos (by omega : mc + k > mc)]
  refine ⟨hif, ?_⟩
  rw [hif, List.filter_map, List.length_map]
  have hfe : ((List.range (mc + k)).filter
        ((fun p : Nat × Message => decide (k + 1 ≤ p.1)) ∘
          (fun i => (i + 1, (⟨i + 1, ct i, st i⟩ : Message))))) =
      (List.range (mc + k)).filter (fun i => decide (k ≤ i)) := by
    apply List.filter_congr
    intro x _
    simp only [Function.comp, decide_eq_decide]
    omega
  rw [hfe, length_filter_range]
  omega

theorem cleanupOldMessages_evicts_oldest_witness :
    (0 : Nat) < 2 ∧
    (cleanupOldMessages 3
        ((List.range (3 + 2)).map
          (fun i => (i + 1, ⟨i + 1, [116], MsgStatus.Acknowledged⟩)))
        (3 + 2 + 1) =
      ((List.range (3 + 2)).map
          (fun i => (i + 1, (⟨i + 1, [116], MsgStatus.Acknowledged⟩ : Message)))).filter
        (fun p => decide (2 + 1 ≤ p.1)) ∧
     (cleanupOldMessages 3
        ((List.range (3 + 2)).map
          (fun i => (i + 1, ⟨i + 1, [116], MsgStatus.Acknowledged⟩)))
        (3 + 2 + 1)).length ≤ 3) :=
  ⟨by decide,
    cleanupOldMessages_evicts_oldest 3 2 (fun _ => MsgStatus.Acknowledged)
      (fun _ => [116]) (by decide)⟩

theorem find?_map_replace (store : List (Nat × Message)) (id : Nat) (m : Message)
    (h : store.any (fun p => p.1 = id) = true) :
    (store.map (fun p => if p.1 = id then (id, m) else p)).find?
        (fun p => p.1 = id) = some (id, m) := by
  induction store with
  | nil => simp at h
  | cons y t ih =>
    by_cases hy : y.1 = id
    · simp [hy]
    · have ht : t.any (fun p => p.1 = id) = true := by
        simpa [List.any_cons, hy] using h
      simpa [hy] using ih ht

theorem find?_map_replace_ne (store : List (Nat × Message)) (id id' : Nat)
    (m : Message) (h : id' ≠ id) :
    (store.map (fun p => if p.1 = id then (id, m) else p)).find?
        (fun p => p.1 = id') =
      store.find? (fun p => p.1 = id') := by
  induction store with
  | nil => rfl
  | cons y t ih =>
    rw [List.map_cons]
    by_cases hy : y.1 = id
    · rw [if_pos hy, List.find?_cons, List.find?_cons]
      have hd1 : decide ((id : Nat) = id') = false :=
        decide_eq_false (fun hc => h hc.symm)
      have hd2 : decide (y.1 = id') = false :=
        decide_eq_false (by rw [hy]; exact fun hc => h hc.symm)
      simp only [hd1, hd2]
      exact ih
    · rw [if_neg hy]
      simp only [List.find?_cons, ih]

theorem storeLookup_insert_self (store : List (Nat × Message)) (id : Nat)
    (m : Message) :
    storeLookup (storeInsert store id m) id = some m := by
  unfold storeInsert storeLookup
  by_cases h : store.any (fun p => p.1 = id)
  · rw [if_pos h, find?_map_replace store id m h]
    rfl
  · rw [if_neg h, List.find?_append]
    have hnone : store.find? (fun p => decide (p.1 = id)) = none := by
      rw [List.find?_eq_none]
      intro x hx
      simp only [decide_eq_true_eq]
      intro hx1
      exact h (List.any_eq_true.mpr ⟨x, hx, by simp [hx1]⟩)
    rw [hnone]
    simp

theorem storeLookup_insert_ne (store : List (Nat × Message)) (id id' : Nat)
    (m : Message) (h : id' ≠ id) :
    storeLookup (storeInsert store id m) id' = storeLookup store id' := by
  unfold storeInsert storeLookup
  by_cases hany : store.any (fun p => p.1 = id)
  · rw [if_pos hany, find?_map_replace_ne store id id' m h]
  · rw [if_neg hany, List.find?_append]
    have hlast : ([(id, m)] : List (Nat × Message)).find?
        (fun p => decide (p.1 = id')) = none := by
      rw [List.find?_eq_none]
      intro x hx
      simp only [List.mem_singleton] at hx
      subst hx
      simp only [decide_eq_true_eq]
      exact fun hc => h hc.symm
    rw [hlast]
    cases store.find? (fun p => decide (p.1 = id')) <;> rfl

theorem processPending_preserves_failed (ms : List Message) :
    ∀ (c : Conn) (store : List (Nat × Message)) (id : Nat) (rec : Message),
      storeLookup store id = some rec → rec.status = .Failed →
      ∃ rec', storeLookup (processPending c store ms).2 id = some rec' ∧
        rec'.status = .Failed := by
  induction ms with
  | nil =>
    intro c store id rec h1 h2
    exact ⟨rec, h1, h2⟩
  | cons m t ih =>
    intro c store id rec h1 h2
    unfold processPending
    cases hw : connWrite c (encodeFrame m.id m.content) with
    | error e =>
      by_cases hid : id = m.id
      · subst hid
        exact ih _ _ _ { m with status := .Failed }
          (storeLookup_insert_self store m.id { m with status := .Failed }) rfl
      · exact ih _ _ _ rec
          (by rw [storeLookup_insert_ne store m.id id _ hid]; exact h1) h2
    | ok c2 => exact ih _ _ _ rec h1 h2

/-- C5: when the connection rejects every write, the background sender marks
each queued message `Failed` in the Message Store, and the records of IDs not
among the queued messages are untouched. -/
theorem processPending_failed_sends (c : Conn) (store : List (Nat × Message))
    (ms : List Message) (hw : c.writeErr = true) :
    (∀ m ∈ ms, ∃ rec, storeLookup (processPending c store ms).2 m.id = some rec ∧
        rec.status = .Failed) ∧
    (∀ id, (∀ m ∈ ms, m.id ≠ id) →
      storeLookup (processPending c store ms).2 id = storeLookup store id) := by
  induction ms generalizing c store with
  | nil => exact ⟨by simp, fun id _ => rfl⟩
  | cons m t ih =>
    have hcw : connWrite c (encodeFrame m.id m.content) = .error () := by
      unfold connWrite
      by_cases hc : c.closed
      · simp [hc]
      · simp [hc, hw]
    have hstep : processPending c store (m :: t) =
        processPending c (storeInsert store m.id { m with status := .Failed }) t := by
      simp only [processPending, hcw]
    rw [hstep]
    obtain ⟨ih1, ih2⟩ :=
      ih c (storeInsert store m.id { m with status := .Failed }) hw
    constructor
    · intro x hx
      rcases List.mem_cons.mp hx with hx | hx
      · subst hx
        exact processPending_preserves_failed t c _ x.id { x with status := .Failed }
          (storeLookup_insert_self _ _ _) rfl
      · exact ih1 x hx
    · intro id hid
      have hne : m.id ≠ id := hid m (List.mem_cons_self m t)
      rw [ih2 id (fun x hx => hid x (List.mem_cons_of_mem m hx))]
      exact storeLookup_insert_ne store m.id id _ (Ne.symm hne)

theorem processPending_failed_sends_witness :
    ({ readData := [], writtenData := [], writeErr := true, closed := false } :
        Conn).writeErr = true ∧
    ((∀ m ∈ ([⟨1, [10], .Pending⟩, ⟨2, [20], .Pending⟩] : List Message),
        ∃ rec, storeLookup (processPending
            { readData := [], writtenData := [], writeErr := true, closed := false }
            [] [⟨1, [10], .Pending⟩, ⟨2, [20], .Pending⟩]).2 m.id = some rec ∧
          rec.status = .Failed) ∧
      (∀ id, (∀ m ∈ ([⟨1, [10], .Pending⟩, ⟨2, [20], .Pending⟩] : List Message),
          m.id ≠ id) →
        storeLookup (processPending
            { readData := [], writtenData := [], writeErr := true, closed := false }
            [] [⟨1, [10], .Pending⟩, ⟨2, [20], .Pending⟩]).2 id =
          storeLookup [] id)) :=
  ⟨rfl, processPending_failed_sends
    { readData := [], writtenData := [], writeErr := true, closed := false }
    [] [⟨1, [10], .Pending⟩, ⟨2, [20], .Pending⟩] rfl⟩

theorem storeInsert_mem (store : List (Nat × Message)) (id : Nat) (m : Message)
    (x : Nat × Message) (hx : x ∈ storeInsert store id m) :
    x ∈ store ∨ x = (id, m) := by
  unfold storeInsert at hx
  by_cases h : store.any (fun p => p.1 = id)
  · rw [if_pos h] at hx
    rcases List.mem_map.mp hx with ⟨y, hy, hxy⟩
    by_cases hy1 : y.1 = id
    · right
      rw [← hxy, if_pos hy1]
    · left
      rw [← hxy, if_neg hy1]
      exact hy
  · rw [if_neg h] at hx
    rcases List.mem_append.mp hx with h1 | h1
    · left
      exact h1
    · right
      simpa using h1

theorem storeInsert_keys_nodup (store : List (Nat × Message)) (id : Nat)
    (m : Message) (h : (store.map Prod.fst).Nodup) :
    ((storeInsert store id m).map Prod.fst).Nodup := by
  unfold storeInsert
  by_cases hany : store.any (fun p => p.1 = id)
  · rw [if_pos hany]
    have hkeys : (store.map (fun p => if p.1 = id then (id, m) else p)).map Prod.fst =
        store.map Prod.fst := by
      rw [List.map_map]
      apply List.map_congr_left
      intro x _
      by_cases hx1 : x.1 = id
      · simp [Function.comp, hx1]
      · simp [Function.comp, hx1]
    rw [hkeys]
    exact h
  · rw [if_neg hany, List.map_append]
    have hid : id ∉ store.map Prod.fst := by
      intro hmem
      rcases List.mem_map.mp hmem with ⟨y, hy, hyx⟩
      exact hany (List.any_eq_true.mpr ⟨y, hy, by simp [hyx]⟩)
    simp [List.nodup_append, h, hid]

theorem ackWriterWrite_nextID_le (mms : Nat) (aw : AckWriter) (p : List Nat) :
    aw.nextID ≤ (ackWriterWrite mms aw p).1.nextID := by
  unfold ackWriterWrite
  by_cases hs : p.length > mms
  · simp [hs]
  · cases hcc : aw.cancelled with
    | true => simp [hs, hcc]
    | false =>
      simp only [hs, hcc, if_false, Bool.false_eq_true, decide_eq_true_eq]
      cases hcw : connWrite aw.conn (encodeFrame (aw.nextID % u32Mod) p) <;>
        simp [hcw]

theorem writeAllLog_counter_lb (mms : Nat) (ps : List (List Nat)) :
    ∀ (aw : AckWriter) (x : Nat),
      x ∈ (writeAllLog mms aw ps).2.filterMap (fun o => o) → aw.nextID ≤ x := by
  induction ps with
  | nil =>
    intro aw x hx
    simp [writeAllLog] at hx
  | cons p t ih =>
    intro aw x hx
    simp only [writeAllLog, List.filterMap_cons] at hx
    by_cases hcond : aw.nextID < (ackWriterWrite mms aw p).1.nextID
    · rw [if_pos hcond] at hx
      rcases List.mem_cons.mp hx with h | h
      · omega
      · exact le_trans (ackWriterWrite_nextID_le mms aw p) (ih _ x h)
    · rw [if_neg hcond] at hx
      exact le_trans (ackWriterWrite_nextID_le mms aw p) (ih _ x hx)

theorem writeAllLog_pairwise (mms : Nat) (ps : List (List Nat)) :
    ∀ aw : AckWriter,
      ((writeAllLog mms aw ps).2.filterMap (fun o => o)).Pairwise (· < ·) := by
  induction ps with
  | nil =>
    intro aw
    simp [writeAllLog]
  | cons p t ih =>
    intro aw
    simp only [writeAllLog, List.filterMap_cons]
    by_cases hcond : aw.nextID < (ackWriterWrite mms aw p).1.nextID
    · rw [if_pos hcond]
      refine List.Pairwise.cons ?_ (ih _)
      intro y hy
      exact lt_of_lt_of_le hcond (writeAllLog_counter_lb mms t _ y hy)
    · rw [if_neg hcond]
      exact ih _

theorem ackWriterWrite_invariant (mms : Nat) (aw : AckWriter) (p : List Nat)
    (h1 : aw.conn.closed = false) (h2 : aw.conn.writeErr = false)
    (h3 : ∀ q ∈ aw.messageStore, q.2.status = MsgStatus.Pending ∧ q.2.id = q.1)
    (h4 : (aw.messageStore.map Prod.fst).Nodup) :
    (ackWriterWrite mms aw p).1.conn.closed = false ∧
    (ackWriterWrite mms aw p).1.conn.writeErr = false ∧
    (∀ q ∈ (ackWriterWrite mms aw p).1.messageStore,
      q.2.status = MsgStatus.Pending ∧ q.2.id = q.1) ∧
    ((ackWriterWrite mms aw p).1.messageStore.map Prod.fst).Nodup := by
  unfold ackWriterWrite
  by_cases hs : p.length > mms
  · simp only [hs, if_true, decide_eq_true_eq, if_pos]
    exact ⟨h1, h2, h3, h4⟩
  · cases hcc : aw.cancelled with
    | true =>
      simp only [hs, hcc, if_true, if_false, decide_eq_true_eq]
      exact ⟨h1, h2, h3, h4⟩
    | false =>
      have hcw : connWrite aw.conn (encodeFrame (aw.nextID % u32Mod) p) =
          .ok { aw.conn with
            writtenData := aw.conn.writtenData ++ encodeFrame (aw.nextID % u32Mod) p } := by
        simp [connWrite, h1, h2]
      simp only [hs, hcc, if_false, Bool.false_eq_true, decide_eq_true_eq, hcw]
      refine ⟨h1, h2, ?_, ?_⟩
      · intro q hq
        rcases storeInsert_mem _ _ _ q hq with h | h
        · exact h3 q h
        · rw [h]
          exact ⟨rfl, rfl⟩
      · exact storeInsert_keys_nodup _ _ _ h4

/-- C7: over a writer's lifetime, the ID counters allocated by accepted
`Write` calls (the wire ID being the counter's low 32 bits) form a strictly
increasing sequence, every record is created with status `Pending`, and the
Message Store never holds two records with the same ID. -/
theorem ackWriter_id_allocation (mms : Nat) (ps : List (List Nat)) :
    ((writeAllLog mms (newAckWriter (mkConn [])) ps).2.filterMap
        (fun o => o)).Pairwise (· < ·) ∧
    (∀ q ∈ (writeAllLog mms (newAckWriter (mkConn [])) ps).1.messageStore,
      q.2.status = MsgStatus.Pending ∧ q.2.id = q.1) ∧
    ((writeAllLog mms (newAckWriter (mkConn [])) ps).1.messageStore.map
        Prod.fst).Nodup := by
  refine ⟨writeAllLog_pairwise mms ps _, ?_⟩
  have main : ∀ (qs : List (List Nat)) (aw : AckWriter),
      aw.conn.closed = false → aw.conn.writeErr = false →
      (∀ q ∈ aw.messageStore, q.2.status = MsgStatus.Pending ∧ q.2.id = q.1) →
      (aw.messageStore.map Prod.fst).Nodup →
      (∀ q ∈ (writeAllLog mms aw qs).1.messageStore,
        q.2.status = MsgStatus.Pending ∧ q.2.id = q.1) ∧
      ((writeAllLog mms aw qs).1.messageStore.map Prod.fst).Nodup := by
    intro qs
    induction qs with
    | nil =>
      intro aw h1 h2 h3 h4
      exact ⟨h3, h4⟩
    | cons p t ih =>
      intro aw h1 h2 h3 h4
      obtain ⟨g1, g2, g3, g4⟩ := ackWriterWrite_invariant mms aw p h1 h2 h3 h4
      simp only [writeAllLog]
      exact ih _ g1 g2 g3 g4
  exact main ps _ rfl rfl (by simp [newAckWriter]) (by simp [newAckWriter])

theorem ackWriter_id_allocation_witness :
    ((writeAllLog 5 (newAckWriter (mkConn [])) [[1, 2], [3]]).2.filterMap
        (fun o => o)).Pairwise (· < ·) ∧
    (∀ q ∈ (writeAllLog 5 (newAckWriter (mkConn [])) [[1, 2], [3]]).1.messageStore,
      q.2.status = MsgStatus.Pending ∧ q.2.id = q.1) ∧
    ((writeAllLog 5 (newAckWriter (mkConn [])) [[1, 2], [3]]).1.messageStore.map
        Prod.fst).Nodup :=
  ackWriter_id_allocation 5 [[1, 2], [3]]

end Cocos
